import Mathlib

/-!
# Formal model of the MoodTracker analytics engine (src/app.py)

Shallow embedding conventions:

* A spreadsheet row (one check-in) is a `Record`.  `date` is the calendar
  date as a whole number of days since a fixed epoch chosen so that day `0`
  is a Monday (pandas `Timestamp`s of bare dates are midnight instants, and
  the engine only compares them and takes `dt.dayofweek` / `dt.day_name()`).
* `score` is embedded as `ℚ` (the sheet stores an integer 0–20; pandas holds
  it as a number and all derived means are exact rationals in the fragment
  the claims exercise).
* The `Tags` cell stores `", ".join(tags)`; `get_tag_correlations` filters
  `Tags != ""` and then splits on `", "`.  We embed the cell directly as the
  tag list, so the filter becomes `tags ≠ []`.
* The `Medication` cell is the literal string `"Yes"` or `"No"`.
* pandas `Series.mean()` of an *empty* series is the float `NaN`; Python
  `None` is a distinct value.  We model a possibly-NaN float as `Option ℚ`
  (`none` = NaN) and a possibly-`None` Python value as an outer `Option`.
* pandas `DataFrame.sort_values(by, ascending=False)` computes a stable
  ascending argsort and then *reverses* it (`nargsort` reverses the indexer
  when `ascending=False`; the underlying numpy sort is in its stable
  insertion-sort regime for the small arrays this app produces, at most the
  12 tags of the input vocabulary).  We embed it as
  `(List.insertionSort le l).reverse`, i.e. reverse of a stable ascending
  sort — so equal keys come out in *reverse* input order.
* pandas `nlargest n 'Date'` / `nsmallest n 'Date'` keep the first-occurring
  rows among ties (`keep='first'`), i.e. they are `take n` of a *stable*
  descending (resp. ascending) sort by date; `List.insertionSort` is stable,
  so `take n (insertionSort le l)` with the corresponding relation is a
  faithful embedding.
* `groupby` sorts group keys ascending (`sort=True` default); grouping by
  `DayName` orders groups alphabetically by the English weekday name.

The per-user frame handed to the analytics functions by `analyze_user_data`
is sorted ascending by date; none of the modelled outputs depend on the
input order under the hypotheses stated in the theorems (distinct dates
where row selection by date matters), so the functions below take an
arbitrary list.
-/

namespace MoodTracker

attribute [local semireducible] Rat.add Rat.sub Rat.mul Rat.inv

/-- One check-in row of the sheet, restricted to the fields the analytics
read (`User_Email` filtering happens before the engine and `Note` /
`Gratitude` are not used by the modelled computations). -/
structure Record where
  date : ℤ
  score : ℚ
  tags : List String
  medication : String
deriving DecidableEq, Repr

/-- One row of the tag-correlation result frame
(`groupby('Tags')['Score'].agg(['mean', 'count'])`). -/
structure TagStat where
  tag : String
  mean : ℚ
  count : ℕ
deriving DecidableEq, Repr

/-- The insight dictionaries produced by `get_pattern_insights`, with the
numeric evidence that the code interpolates into the message text.
`trend` carries the signed difference and the flag `diff > 0` that selects
the "rising" (adverse) message over the "improving" one. -/
inductive Insight where
  | day_pattern (worstDay bestDay : ℤ) (worstMean bestMean : ℚ)
  | trend (diff : ℚ) (rising : Bool)
  | warning (mean5 : ℚ)
  | tag_insight (tag : String) (count : ℕ) (mean : ℚ)
deriving DecidableEq, Repr

/-- Mean of a list of scores as computed by pandas on a *nonempty* series;
on `[]` this normalises to `0` (every use below is guarded so that the `[]`
case only feeds comparisons that the float `NaN` would also fail). -/
def meanQ (l : List ℚ) : ℚ := l.sum / (l.length : ℚ)

/-- pandas `Series.mean()`: `NaN` (modelled `none`) on an empty series. -/
def pmean (l : List ℚ) : Option ℚ :=
  if l.isEmpty then none else some (meanQ l)

/-- Float subtraction with NaN propagation (`NaN - x = x - NaN = NaN`). -/
def nanSub : Option ℚ → Option ℚ → Option ℚ
  | some a, some b => some (a - b)
  | _, _ => none

/-! ## Date sorting (pandas `nlargest` / `nsmallest` on the Date column) -/

/-- Relation sorting records descending by date. -/
def dateDescLe (a b : Record) : Prop := b.date ≤ a.date

/-- Relation sorting records ascending by date. -/
def dateAscLe (a b : Record) : Prop := a.date ≤ b.date

instance : DecidableRel dateDescLe := fun a b =>
  inferInstanceAs (Decidable (b.date ≤ a.date))

instance : DecidableRel dateAscLe := fun a b =>
  inferInstanceAs (Decidable (a.date ≤ b.date))

instance : IsTotal Record dateDescLe := ⟨fun a b => le_total b.date a.date⟩

instance : IsTrans Record dateDescLe :=
  ⟨fun _ _ _ h h' => le_trans h' h⟩

instance : IsTotal Record dateAscLe := ⟨fun a b => le_total a.date b.date⟩

instance : IsTrans Record dateAscLe :=
  ⟨fun _ _ _ h h' => le_trans h h'⟩

/-- Stable descending sort by date. -/
def sortDateDesc (df : List Record) : List Record :=
  List.insertionSort dateDescLe df

/-- Stable ascending sort by date. -/
def sortDateAsc (df : List Record) : List Record :=
  List.insertionSort dateAscLe df

/-- `df.nlargest(n, 'Date')` (keep='first'). -/
def nlargestByDate (n : ℕ) (df : List Record) : List Record :=
  (sortDateDesc df).take n

/-- `df.nsmallest(n, 'Date')` (keep='first'). -/
def nsmallestByDate (n : ℕ) (df : List Record) : List Record :=
  (sortDateAsc df).take n

/-! ## Weekly comparison (src/app.py lines 51–56) and its use in `main`
(lines 316–324) -/

/-- Membership in the current window `(now − 7d, now]` (line 54). -/
def inCurrWindow (now : ℚ) (r : Record) : Bool :=
  decide (now - 7 < (r.date : ℚ)) && decide ((r.date : ℚ) ≤ now)

/-- Membership in the prior window `(now − 14d, now − 7d]` (line 55). -/
def inLastWindow (now : ℚ) (r : Record) : Bool :=
  decide (now - 14 < (r.date : ℚ)) && decide ((r.date : ℚ) ≤ now - 7)

/-- `get_weekly_comparison` (lines 51–56).  The outer `Option` is the
Python `None, None` returned for an empty frame; the inner `Option ℚ`
values are the pandas means of the window slices, which are the float
`NaN` (`none`) when a window holds no records. -/
def get_weekly_comparison (df : List Record) (now : ℚ) :
    Option (Option ℚ × Option ℚ) :=
  if df.isEmpty then none
  else
    some (pmean ((df.filter (inCurrWindow now)).map Record.score),
          pmean ((df.filter (inLastWindow now)).map Record.score))

/-- The "Week Avg" metric block of `main` (lines 316–324): it shows the
metric — value `curr`, delta `curr - last` — as soon as the frame is
nonempty and the returned pair is not the Python `None, None`, because the
`is not None` checks do not recognise the float `NaN`.  Result: `none` when
nothing is rendered, otherwise `some (value, delta)` (either component
`none` meaning a rendered NaN). -/
def weekMetric (df : List Record) (now : ℚ) : Option (Option ℚ × Option ℚ) :=
  match get_weekly_comparison df now with
  | none => none
  | some (curr, last) => some (curr, nanSub curr last)

/-! ## Tag correlations (src/app.py lines 58–63) -/

/-- The exploded (tag, score) rows: records with a nonempty `Tags` cell,
one row per tag, each carrying the record's full score (lines 59–61). -/
def tagPairs (df : List Record) : List (String × ℚ) :=
  (df.filter fun r => !r.tags.isEmpty).flatMap fun r =>
    r.tags.map fun t => (t, r.score)

/-- Lexicographic (code-point) order on strings, the order in which Python
compares tag labels and hence in which `groupby` sorts its keys.  Stated on
the underlying character lists so that it is kernel-computable. -/
def strLe (a b : String) : Prop := a.data ≤ b.data

/-- Strict lexicographic order on strings. -/
def strLt (a b : String) : Prop := a.data < b.data

instance : DecidableRel strLe := fun a b =>
  decidable_of_iff (¬ b.data < a.data) not_lt

instance : DecidableRel strLt := fun a b =>
  inferInstanceAs (Decidable (a.data < b.data))

instance : IsTotal String strLe := ⟨fun a b => le_total a.data b.data⟩

instance : IsTrans String strLe := ⟨fun _ _ _ h h' => le_trans h h'⟩

/-- The aggregated row for one tag: mean and count of the exploded rows
carrying that tag (line 63, `agg(['mean', 'count'])`). -/
def statFor (pairs : List (String × ℚ)) (t : String) : TagStat :=
  let scores := (pairs.filter fun p => p.1 == t).map Prod.snd
  ⟨t, meanQ scores, scores.length⟩

/-- `groupby('Tags')` output: one row per distinct tag, rows ordered
ascending by tag (groupby sorts its keys). -/
def groupedStats (pairs : List (String × ℚ)) : List TagStat :=
  (List.insertionSort strLe (pairs.map Prod.fst).dedup).map (statFor pairs)

/-- Relation sorting tag stats ascending by mean. -/
def meanLe (a b : TagStat) : Prop := a.mean ≤ b.mean

instance : DecidableRel meanLe := fun a b =>
  inferInstanceAs (Decidable (a.mean ≤ b.mean))

/-- `get_tag_correlations` (lines 58–63): explode, group, then
`sort_values(by='mean', ascending=False)` — embedded as the reverse of a
stable ascending sort, which is what pandas computes (see header). -/
def get_tag_correlations (df : List Record) : List TagStat :=
  let pairs := tagPairs df
  if pairs.isEmpty then []
  else (List.insertionSort meanLe (groupedStats pairs)).reverse

/-! ## Pattern insights (src/app.py lines 65–137) -/

/-- `dt.dayofweek` of a record's date: Monday = 0 … Sunday = 6 (the epoch
of our date encoding is a Monday). -/
def dow (r : Record) : ℤ := r.date % 7

/-- Position of weekday `w` in the alphabetical order of the English
weekday names (`Friday, Monday, Saturday, Sunday, Thursday, Tuesday,
Wednesday`), which is the order of the `groupby('DayName')` rows. -/
def dayNameRank (w : ℤ) : ℕ :=
  if w = 4 then 0 else if w = 0 then 1 else if w = 5 then 2
  else if w = 6 then 3 else if w = 3 then 4 else if w = 1 then 5 else 6

/-- Relation ordering weekdays as `groupby('DayName')` orders its rows. -/
def rankLe (w v : ℤ) : Prop := dayNameRank w ≤ dayNameRank v

instance : DecidableRel rankLe := fun w v =>
  inferInstanceAs (Decidable (dayNameRank w ≤ dayNameRank v))

instance : IsTotal ℤ rankLe := ⟨fun a b => le_total (dayNameRank a) (dayNameRank b)⟩

instance : IsTrans ℤ rankLe := ⟨fun _ _ _ h h' => le_trans h h'⟩

/-- The distinct weekdays represented in the frame, in groupby row order. -/
def weekdaysPresent (df : List Record) : List ℤ :=
  List.insertionSort rankLe (df.map dow).dedup

/-- Mean score of the records falling on weekday `w`. -/
def weekdayMean (df : List Record) (w : ℤ) : ℚ :=
  meanQ ((df.filter fun r => dow r == w).map Record.score)

/-- `day_stats` (line 78): per-weekday `(weekday, mean)` rows.  The `count`
column is never read by the rule, so it is omitted. -/
def dayStats (df : List Record) : List (ℤ × ℚ) :=
  (weekdaysPresent df).map fun w => (w, weekdayMean df w)

/-- `idxmin` on the mean column followed by `loc`: the first row attaining
the minimal mean. -/
def idxminPair : List (ℤ × ℚ) → ℤ × ℚ
  | [] => (0, 0)
  | [p] => p
  | p :: q :: rest =>
    let m := idxminPair (q :: rest)
    if p.2 ≤ m.2 then p else m

/-- `idxmax` on the mean column followed by `loc`: the first row attaining
the maximal mean. -/
def idxmaxPair : List (ℤ × ℚ) → ℤ × ℚ
  | [] => (0, 0)
  | [p] => p
  | p :: q :: rest =>
    let m := idxmaxPair (q :: rest)
    if m.2 ≤ p.2 then p else m

/-- Rule 1, day-of-week pattern (lines 77–88). -/
def dayInsight (df : List Record) : Option Insight :=
  let stats := dayStats df
  if 3 ≤ stats.length then
    let best := idxminPair stats
    let worst := idxmaxPair stats
    if 2 ≤ worst.2 - best.2 then
      some (.day_pattern worst.1 best.1 worst.2 best.2)
    else none
  else none

/-- Rule 2, recent trend (lines 90–108): `recent_7 = nlargest(7, 'Date')`,
`prev_7 = nlargest(14, 'Date').nsmallest(7, 'Date')`; fires when
`|recent_7.mean - prev_7.mean| ≥ 2`, with the message chosen by the sign. -/
def trendInsight (df : List Record) : Option Insight :=
  if 14 ≤ df.length then
    let recent7 := meanQ ((nlargestByDate 7 df).map Record.score)
    let prev7 := meanQ ((nsmallestByDate 7 (nlargestByDate 14 df)).map Record.score)
    let diff := recent7 - prev7
    if 2 ≤ |diff| then some (.trend diff (decide (0 < diff))) else none
  else none

/-- Rule 3, sustained-high-score warning (lines 110–117): the 5 most recent
records, firing when there are exactly 5 of them and their mean is ≥ 12. -/
def warningInsight (df : List Record) : Option Insight :=
  let recent5 := nlargestByDate 5 df
  let m := meanQ (recent5.map Record.score)
  if recent5.length = 5 ∧ 12 ≤ m then some (.warning m) else none

/-- The fixed protective-tag allow-list (line 124). -/
def positive_tags : List String := ["🏃 有運動", "🎮 放鬆/娛樂", "🥰 與朋友聚會"]

/-- Rule 4, protective-tag insight (lines 119–135): needs at least 2 rows
in the overall tag correlation; restricts to `positive_tags`, takes the
last row (`iloc[-1]`, the lowest mean among them in the mean-descending
frame), and fires when that tag's count is ≥ 3.  (`'Tags' in df.columns`
is always true for the modelled frame.) -/
def tagRuleInsight (df : List Record) : Option Insight :=
  let tag_stats := get_tag_correlations df
  if 2 ≤ tag_stats.length then
    let pstats := tag_stats.filter fun s => positive_tags.contains s.tag
    match pstats.getLast? with
    | some best =>
      if 3 ≤ best.count then some (.tag_insight best.tag best.count best.mean)
      else none
    | none => none
  else none

/-- `get_pattern_insights` (lines 65–137): empty below 7 records, else the
four rules' conditional appends in source order. -/
def get_pattern_insights (df : List Record) : List Insight :=
  if df.length < 7 then []
  else
    (dayInsight df).toList ++ (trendInsight df).toList ++
      (warningInsight df).toList ++ (tagRuleInsight df).toList

/-! ## Medication adherence (src/app.py lines 470–524) -/

/-- The trailing-30-day slice (line 476): `Date > now − 30d`. -/
def medWindow (df : List Record) (now : ℚ) : List Record :=
  df.filter fun r => decide (now - 30 < (r.date : ℚ))

/-- The adherence metrics of lines 478–492: `none` when the 30-day window
is empty (the code only computes them under `if not med_df.empty`),
otherwise `(adherence_rate, days_taken, total_days)` with
`adherence_rate = days_taken / total_days * 100` (the `else 0` branch of
the source's conditional expression is unreachable under the emptiness
guard). -/
def adherenceStats (df : List Record) (now : ℚ) : Option (ℚ × ℕ × ℕ) :=
  let med_df := medWindow df now
  if med_df.isEmpty then none
  else
    let total := med_df.length
    let taken := (med_df.filter fun r => r.medication == "Yes").length
    some (((taken : ℚ) / (total : ℚ)) * 100, taken, total)

/-- The medication–mood correlation block of lines 502–513: emitted only
when both the taken and the missed subgroup are nonempty; carries
`(avg_score_taken, avg_score_missed, score_diff)` with
`score_diff = avg_score_missed - avg_score_taken`. -/
def medCorrelation (df : List Record) (now : ℚ) : Option (ℚ × ℚ × ℚ) :=
  let med_df := medWindow df now
  let takenScores := (med_df.filter fun r => r.medication == "Yes").map Record.score
  let missedScores := (med_df.filter fun r => r.medication == "No").map Record.score
  if takenScores.isEmpty || missedScores.isEmpty then none
  else
    some (meanQ takenScores, meanQ missedScores, meanQ missedScores - meanQ takenScores)

/-! ## Derived notions used to state the claims -/

/-- The mean score of the 5 most-recent-by-date records. -/
def mean5 (df : List Record) : ℚ :=
  meanQ ((nlargestByDate 5 df).map Record.score)

/-- The mean score of the 7 most-recent-by-date records. -/
def recent7mean (df : List Record) : ℚ :=
  meanQ ((nlargestByDate 7 df).map Record.score)

/-- The mean score of the 7 records immediately preceding the 7 most
recent ones: positions 8–14 of the date-descending order. -/
def prev7specmean (df : List Record) : ℚ :=
  meanQ (((nlargestByDate 14 df).drop 7).map Record.score)

/-- The number of distinct weekdays represented in the frame. -/
def numWeekdays (df : List Record) : ℕ :=
  ((df.map dow).dedup).length

/-- The list of per-weekday mean scores (one entry per represented
weekday). -/
def wdMeans (df : List Record) : List ℚ :=
  (dayStats df).map Prod.snd

/-- The rows of the tag correlation whose tag is protective. -/
def protectiveStats (df : List Record) : List TagStat :=
  (get_tag_correlations df).filter fun s => positive_tags.contains s.tag

/-- Strict "sort key" order of the tag-correlation output: descending by
mean, with equal means ordered by *descending* tag. -/
def statDescLex (a b : TagStat) : Prop :=
  b.mean < a.mean ∨ (b.mean = a.mean ∧ strLt b.tag a.tag)

/-- Ascending companion of `statDescLex`. -/
def statAscLex (a b : TagStat) : Prop :=
  a.mean < b.mean ∨ (a.mean = b.mean ∧ strLt a.tag b.tag)

/-- Shorthand for building example records. -/
def mkRec (d : ℤ) (s : ℚ) (ts : List String := []) (m : String := "Yes") :
    Record :=
  ⟨d, s, ts, m⟩

/-! ## Example record collections used by counterexamples and witnesses -/

/-- 7 records on consecutive days, every score 13. -/
def exC1 : List Record := (List.range 7).map fun i => mkRec ((i : ℤ) + 1) 13

/-- A single record dated 20 days before the reference instant `0`:
both weekly windows are empty. -/
def exC2 : List Record := [mkRec (-20) 8]

/-- 10 records in the trailing 30 days: 7 taken with score 5, 3 missed
with score 9. -/
def exC3 : List Record := (List.range 10).map fun i =>
  if i < 7 then mkRec (-(i : ℤ) - 1) 5 [] "Yes" else mkRec (-(i : ℤ) - 1) 9 [] "No"

/-- Two records with distinct tags and *equal* scores. -/
def exC4tie : List Record := [mkRec 1 5 ["A"], mkRec 2 5 ["B"]]

/-- The spec's tag scenario: `["A","B"]` with score 8 and `["A"]` with
score 4. -/
def exC4 : List Record := [mkRec 1 8 ["A", "B"], mkRec 2 4 ["A"]]

/-- A record dated exactly 7 days before the reference instant `7`. -/
def exC5 : Record := mkRec 0 5

/-- Same shape as the spec's tag scenario, for the tag-count sum. -/
def exC6 : List Record := [mkRec 1 8 ["A", "B"], mkRec 2 4 ["A"]]

/-- The spec's trend scenario: days 1..14, scores 2 on days 1–7 and 10 on
days 8–14. -/
def exC7 : List Record := (List.range 14).map fun i =>
  mkRec ((i : ℤ) + 1) (if i < 7 then 2 else 10)

/-- 7 records on 7 consecutive days, six scores 2 and one score 10. -/
def exC8 : List Record := (List.range 7).map fun i =>
  mkRec ((i : ℤ) + 1) (if i = 6 then 10 else 2)

/-- 7 records all carrying only the protective tag `🏃 有運動`. -/
def exC9 : List Record := (List.range 7).map fun i =>
  mkRec ((i : ℤ) + 1) 3 ["🏃 有運動"]

/-- 3 protective-tagged low-score records plus 4 stress-tagged high-score
records. -/
def exC9b : List Record := (List.range 7).map fun i =>
  if i < 3 then mkRec ((i : ℤ) + 1) 2 ["🏃 有運動"]
  else mkRec ((i : ℤ) + 1) 10 ["🤯 工作壓力"]

/-- Same collection for the implicit two-tags gate. -/
def exC10 : List Record := (List.range 7).map fun i =>
  if i < 3 then mkRec ((i : ℤ) + 1) 2 ["🏃 有運動"]
  else mkRec ((i : ℤ) + 1) 10 ["🤯 工作壓力"]

/-! ## C1 — sustained-high-score warning, counterexample -/

/-- C1, counterexample: on 7 records of score 13 the warning *does* fire —
`get_pattern_insights` emits `warning 13` — although the mean of the 5
most-recent records is 13 < 15.  The source's threshold (line 112) is 12,
not the claimed 15. -/
theorem warning_threshold_cex :
    Insight.warning 13 ∈ get_pattern_insights exC1 ∧
      mean5 exC1 = 13 ∧ ¬ (15 ≤ (13 : ℚ)) := by
  refine ⟨by decide, by decide, by norm_num⟩

/-! ## C2 — NaN weekly averages reach the rendered metric -/

/-- C2, code bug: with a single record 20 days old both weekly windows are
empty, so `get_weekly_comparison` returns the pandas NaN (modelled `none`)
for *both* averages — not a value distinguished from data by the caller —
and `main`'s `is not None` guard (lines 321–324) still renders the metric,
with a NaN value and a NaN delta, instead of treating the undefined
averages as insufficient data. -/
theorem weekly_nan_metric_bug :
    get_weekly_comparison exC2 0 = some (none, none) ∧
      weekMetric exC2 0 = some (none, none) ∧ weekMetric exC2 0 ≠ none := by
  refine ⟨by decide, by decide, by decide⟩

/-! ## C3 — adherence rate, counterexample -/

/-- C3, counterexample: on the claim's own scenario (10 in-window records,
7 taken, 3 missed) the computed adherence rate is `70` — a percentage,
outside `[0,1]` and not the claimed fraction `0.7` (line 482 multiplies by
100). -/
theorem adherence_rate_cex :
    adherenceStats exC3 0 = some (70, 7, 10) ∧ ¬ ((70 : ℚ) ≤ 1) ∧
      (70 : ℚ) ≠ 7 / 10 := by
  refine ⟨by decide, by norm_num, by norm_num⟩

/-! ## C4 — tag ordering, counterexample -/

/-- C4, counterexample: two tags `A`, `B` with equal mean score 5 are
returned as `[B, A]`, the *reverse* of their natural (ascending) display
order, because pandas' descending sort reverses a stable ascending sort;
equal-mean tags do not keep their natural order. -/
theorem tag_sort_tie_cex :
    get_tag_correlations exC4tie =
      [⟨"B", 5, 1⟩, ⟨"A", 5, 1⟩] ∧ strLt "A" "B" := by
  refine ⟨by decide, by decide⟩

/-! ## C9 — protective-tag insight, counterexample -/

/-- C9, counterexample: 7 records all tagged with the protective tag
`🏃 有運動` (7 occurrences ≥ 3, mean 3, trivially the lowest protective
mean) produce *no* `tag_insight` — `get_pattern_insights` is empty —
because the rule also requires at least 2 rows in the overall tag
correlation (line 122), which the claim omits. -/
theorem protective_tag_cex :
    get_tag_correlations exC9 = [⟨"🏃 有運動", 3, 7⟩] ∧
      7 ≤ exC9.length ∧ get_pattern_insights exC9 = [] := by
  refine ⟨by decide, by decide, by decide⟩

/-! ## Infrastructure: membership in the insight list -/

/-- An insight is in the output exactly when one of the four rules emits
it (and at least 7 records exist). -/
lemma mem_insights_iff {df : List Record} (h : ¬ df.length < 7) (i : Insight) :
    i ∈ get_pattern_insights df ↔
      (dayInsight df = some i ∨ trendInsight df = some i ∨
        warningInsight df = some i ∨ tagRuleInsight df = some i) := by
  simp [get_pattern_insights, if_neg h, Option.mem_toList, eq_comm]

lemma get_pattern_insights_short {df : List Record} (h : df.length < 7) :
    get_pattern_insights df = [] := by
  simp [get_pattern_insights, if_pos h]

/-- Rule 1 only ever emits `day_pattern` insights. -/
lemma dayInsight_shape {df : List Record} {i : Insight}
    (h : dayInsight df = some i) :
    ∃ wd bd wm bm, i = .day_pattern wd bd wm bm := by
  unfold dayInsight at h
  dsimp only at h
  split_ifs at h
  · exact ⟨_, _, _, _, (Option.some_injective _ h).symm⟩

/-- Rule 2 only ever emits `trend` insights. -/
lemma trendInsight_shape {df : List Record} {i : Insight}
    (h : trendInsight df = some i) : ∃ d b, i = .trend d b := by
  unfold trendInsight at h
  dsimp only at h
  split_ifs at h
  · exact ⟨_, _, (Option.some_injective _ h).symm⟩

/-- Rule 3 only ever emits `warning` insights. -/
lemma warningInsight_shape {df : List Record} {i : Insight}
    (h : warningInsight df = some i) : ∃ m, i = .warning m := by
  unfold warningInsight at h
  dsimp only at h
  split_ifs at h
  · exact ⟨_, (Option.some_injective _ h).symm⟩

/-- Rule 4 only ever emits `tag_insight` insights. -/
lemma tagRuleInsight_shape {df : List Record} {i : Insight}
    (h : tagRuleInsight df = some i) : ∃ t c m, i = .tag_insight t c m := by
  unfold tagRuleInsight at h
  dsimp only at h
  split_ifs at h
  rcases hl : (get_tag_correlations df).filter
      (fun s => positive_tags.contains s.tag) |>.getLast? with _ | best
  · rw [hl] at h; exact absurd h (by simp)
  · rw [hl] at h
    dsimp only at h
    split_ifs at h
    exact ⟨_, _, _, (Option.some_injective _ h).symm⟩

/-- A `warning` is in the output iff rule 3 emits exactly it. -/
lemma warning_mem_iff {df : List Record} (h : ¬ df.length < 7) (m : ℚ) :
    Insight.warning m ∈ get_pattern_insights df ↔
      warningInsight df = some (.warning m) := by
  rw [mem_insights_iff h]
  constructor
  · rintro (hr | hr | hr | hr)
    · obtain ⟨_, _, _, _, h'⟩ := dayInsight_shape hr; cases h'
    · obtain ⟨_, _, h'⟩ := trendInsight_shape hr; cases h'
    · exact hr
    · obtain ⟨_, _, _, h'⟩ := tagRuleInsight_shape hr; cases h'
  · exact fun hr => Or.inr (Or.inr (Or.inl hr))

/-- A `trend` is in the output iff rule 2 emits exactly it. -/
lemma trend_mem_iff {df : List Record} (h : ¬ df.length < 7) (d : ℚ) (b : Bool) :
    Insight.trend d b ∈ get_pattern_insights df ↔
      trendInsight df = some (.trend d b) := by
  rw [mem_insights_iff h]
  constructor
  · rintro (hr | hr | hr | hr)
    · obtain ⟨_, _, _, _, h'⟩ := dayInsight_shape hr; cases h'
    · exact hr
    · obtain ⟨_, h'⟩ := warningInsight_shape hr; cases h'
    · obtain ⟨_, _, _, h'⟩ := tagRuleInsight_shape hr; cases h'
  · exact fun hr => Or.inr (Or.inl hr)

/-- A `day_pattern` is in the output iff rule 1 emits exactly it. -/
lemma day_mem_iff {df : List Record} (h : ¬ df.length < 7)
    (wd bd : ℤ) (wm bm : ℚ) :
    Insight.day_pattern wd bd wm bm ∈ get_pattern_insights df ↔
      dayInsight df = some (.day_pattern wd bd wm bm) := by
  rw [mem_insights_iff h]
  constructor
  · rintro (hr | hr | hr | hr)
    · exact hr
    · obtain ⟨_, _, h'⟩ := trendInsight_shape hr; cases h'
    · obtain ⟨_, h'⟩ := warningInsight_shape hr; cases h'
    · obtain ⟨_, _, _, h'⟩ := tagRuleInsight_shape hr; cases h'
  · exact fun hr => Or.inl hr

/-- A `tag_insight` is in the output iff rule 4 emits exactly it. -/
lemma tag_mem_iff {df : List Record} (h : ¬ df.length < 7)
    (t : String) (c : ℕ) (m : ℚ) :
    Insight.tag_insight t c m ∈ get_pattern_insights df ↔
      tagRuleInsight df = some (.tag_insight t c m) := by
  rw [mem_insights_iff h]
  constructor
  · rintro (hr | hr | hr | hr)
    · obtain ⟨_, _, _, _, h'⟩ := dayInsight_shape hr; cases h'
    · obtain ⟨_, _, h'⟩ := trendInsight_shape hr; cases h'
    · obtain ⟨_, h'⟩ := warningInsight_shape hr; cases h'
    · exact hr
  · exact fun hr => Or.inr (Or.inr (Or.inr hr))

lemma length_nlargest (n : ℕ) (df : List Record) :
    (nlargestByDate n df).length = min n df.length := by
  simp [nlargestByDate, sortDateDesc]

/-- C1, amended: the sustained-high-score warning requires at least 7
records overall (the engine gate, so with 6 or fewer records — not 4 — it
never fires), and then fires iff the mean score of the 5 most-recent-by-
date records is at least 12 (the source threshold, not 15), reporting that
mean. -/
theorem warning_rule_amended (df : List Record) :
    (df.length < 7 → get_pattern_insights df = []) ∧
    (7 ≤ df.length →
      ∀ m : ℚ, Insight.warning m ∈ get_pattern_insights df ↔
        (m = mean5 df ∧ 12 ≤ mean5 df)) := by
  refine ⟨fun h => get_pattern_insights_short h, fun h7 m => ?_⟩
  rw [warning_mem_iff (by omega) m]
  have hlen : (nlargestByDate 5 df).length = 5 := by
    rw [length_nlargest]; omega
  unfold warningInsight mean5
  dsimp only
  split_ifs with hc
  · simp only [Option.some.injEq, Insight.warning.injEq]
    exact ⟨fun he => ⟨he.symm, hc.2⟩, fun he => he.1.symm⟩
  · simp only [(by simp : (none : Option Insight) ≠ some (.warning m)).elim, false_iff]
    rintro ⟨rfl, h12⟩
    exact hc ⟨hlen, h12⟩

/-- C1 witness: on 7 records of score 13, the amended rule fires with
mean 13. -/
theorem warning_rule_amended_witness :
    7 ≤ exC1.length ∧ Insight.warning 13 ∈ get_pattern_insights exC1 :=
  ⟨by decide, ((warning_rule_amended exC1).2 (by decide) 13).mpr ⟨by decide, by decide⟩⟩

/-! ## C5 — window boundary -/

/-- C5, confirmed: a record dated exactly `now − 7d` satisfies the prior
window's filter and not the current window's: both windows are exclusive
at the lower bound and inclusive at the upper bound, so such a record
enters the prior-week slice (hence its average) and is excluded from the
current-week slice. -/
theorem boundary_record_prior_window (now : ℚ) (r : Record)
    (h : (r.date : ℚ) = now - 7) :
    inLastWindow now r = true ∧ inCurrWindow now r = false ∧
    ∀ df : List Record, r ∈ df →
      r ∈ df.filter (inLastWindow now) ∧ r ∉ df.filter (inCurrWindow now) := by
  have h1 : inLastWindow now r = true := by
    simp only [inLastWindow, h, Bool.and_eq_true, decide_eq_true_eq]
    constructor <;> linarith
  have h2 : inCurrWindow now r = false := by
    simp only [inCurrWindow, h, Bool.and_eq_false_iff, decide_eq_false_iff_not]
    left; linarith
  refine ⟨h1, h2, fun df hdf => ⟨List.mem_filter.mpr ⟨hdf, h1⟩, fun hc => ?_⟩⟩
  have := (List.mem_filter.mp hc).2
  rw [h2] at this
  cases this

/-- C5 witness: the record dated day 0 with reference instant `now = 7`. -/
theorem boundary_record_prior_window_witness :
    inLastWindow 7 exC5 = true ∧ inCurrWindow 7 exC5 = false ∧
      exC5 ∈ [exC5].filter (inLastWindow 7) ∧
        exC5 ∉ [exC5].filter (inCurrWindow 7) := by
  obtain ⟨a, b, c⟩ :=
    boundary_record_prior_window 7 exC5 (by norm_num [exC5, mkRec])
  exact ⟨a, b, c [exC5] (by simp)⟩

/-! ## C3 — adherence rate, amended -/

/-- C3, amended: the adherence rate is reported as a *percentage*
`taken / total × 100` in `[0, 100]` (undefined — not computed — when the
trailing-30-day window has no entries), and on the scenario of 10
in-window records with 7 taken (score 5) and 3 missed (score 9) it reports
rate 70 (i.e. 70%), and, both subgroups being nonempty, emits the
correlation metric with signed difference (missed − taken) = +4. -/
theorem adherence_rate_amended :
    (∀ (df : List Record) (now rate : ℚ) (taken total : ℕ),
      adherenceStats df now = some (rate, taken, total) →
        rate = (taken : ℚ) / (total : ℚ) * 100 ∧ taken ≤ total ∧
          0 ≤ rate ∧ rate ≤ 100) ∧
    adherenceStats exC3 0 = some (70, 7, 10) ∧
      medCorrelation exC3 0 = some (5, 9, 4) := by
  refine ⟨?_, by decide, by decide⟩
  intro df now rate taken total h
  unfold adherenceStats at h
  dsimp only at h
  split_ifs at h with hne
  have h' := Option.some_injective _ h
  rw [Prod.mk.injEq, Prod.mk.injEq] at h'
  obtain ⟨h1, h2, h3⟩ := h'
  subst h1
  subst h2
  subst h3
  have hle : ((medWindow df now).filter
      (fun r => r.medication == "Yes")).length ≤ (medWindow df now).length :=
    List.length_filter_le _ _
  have hpos : 0 < (medWindow df now).length := by
    have : medWindow df now ≠ [] := by
      intro he; rw [he] at hne; simp at hne
    exact List.length_pos.mpr this
  refine ⟨rfl, hle, by positivity, ?_⟩
  have hd : (((medWindow df now).filter
      (fun r => r.medication == "Yes")).length : ℚ) / ((medWindow df now).length : ℚ) ≤ 1 := by
    rw [div_le_one (by exact_mod_cast hpos)]
    exact_mod_cast hle
  nlinarith [hd]

/-- C3 witness: the universal part of the amended claim applied to the
scenario input. -/
theorem adherence_rate_amended_witness :
    (70 : ℚ) = (7 : ℚ) / (10 : ℚ) * 100 ∧ 7 ≤ 10 ∧
      (0 : ℚ) ≤ 70 ∧ (70 : ℚ) ≤ 100 :=
  adherence_rate_amended.1 exC3 0 70 7 10 (by decide)

/-! ## C6 — tag-count sum -/

lemma statFor_count (pairs : List (String × ℚ)) (t : String) :
    (statFor pairs t).count = pairs.countP (fun p => p.1 == t) := by
  simp [statFor, List.countP_eq_length_filter]

lemma gtc_counts_sum (df : List Record) :
    ((get_tag_correlations df).map TagStat.count).sum = (tagPairs df).length := by
  unfold get_tag_correlations
  dsimp only
  split_ifs with hp
  · rw [List.isEmpty_iff] at hp
    simp [hp]
  · have hperm : List.Perm
        (List.insertionSort meanLe (groupedStats (tagPairs df))).reverse
        (groupedStats (tagPairs df)) :=
      (List.reverse_perm _).trans (List.perm_insertionSort _ _)
    rw [(hperm.map TagStat.count).sum_eq]
    unfold groupedStats
    rw [List.map_map]
    rw [((List.perm_insertionSort strLe ((tagPairs df).map Prod.fst).dedup).map
      (TagStat.count ∘ statFor (tagPairs df))).sum_eq]
    have hfn : (TagStat.count ∘ statFor (tagPairs df)) =
        fun t => ((tagPairs df).map Prod.fst).count t := by
      funext t
      simp only [Function.comp_apply, statFor_count, List.count, List.countP_map]
      rfl
    rw [hfn, List.sum_map_count_dedup_eq_length, List.length_map]

lemma tagPairs_length (df : List Record) :
    (tagPairs df).length =
      ((df.filter fun r => !r.tags.isEmpty).map fun r => r.tags.length).sum := by
  unfold tagPairs
  rw [List.flatMap_def, List.length_flatten, List.map_map]
  simp only [Function.comp_def, List.length_map]

/-- C6, confirmed: for every collection with at least one tagged record,
each tagged record contributes one (tag, score) row per tag of its list,
so the counts of the returned tag stats sum to the total tag-list length
over tagged records. -/
theorem tag_count_sum (df : List Record) (h : ∃ r ∈ df, r.tags ≠ []) :
    ((get_tag_correlations df).map TagStat.count).sum =
      ((df.filter fun r => !r.tags.isEmpty).map fun r => r.tags.length).sum :=
  (gtc_counts_sum df).trans (tagPairs_length df)

/-- C6 witness: on the two-record scenario frame the counts sum to 3, the
total number of tag occurrences. -/
theorem tag_count_sum_witness :
    (∃ r ∈ exC6, r.tags ≠ []) ∧
      ((get_tag_correlations exC6).map TagStat.count).sum =
        ((exC6.filter fun r => !r.tags.isEmpty).map fun r => r.tags.length).sum :=
  ⟨by decide, tag_count_sum exC6 (by decide)⟩

/-! ## C4 — ordering of the tag correlation -/

lemma mean_le_of_statAscLex {a b : TagStat} (h : statAscLex a b) :
    a.mean ≤ b.mean := by
  rcases h with h | ⟨h, _⟩
  · exact le_of_lt h
  · exact le_of_eq h

/-- Inserting a stat whose tag strictly precedes every tag of an
`statAscLex`-sorted list (by `orderedInsert` on the mean) keeps the list
`statAscLex`-sorted: the insertion is stable, so among equal means the
incoming (tag-smaller) element lands first. -/
lemma orderedInsert_pairwise_statAscLex (x : TagStat) (s : List TagStat)
    (hs : s.Pairwise statAscLex) (hx : ∀ y ∈ s, strLt x.tag y.tag) :
    (s.orderedInsert meanLe x).Pairwise statAscLex := by
  induction s with
  | nil => simp [List.orderedInsert]
  | cons y ys ih =>
    rw [List.pairwise_cons] at hs
    obtain ⟨hy, hys⟩ := hs
    by_cases hmean : meanLe x y
    · have he : (y :: ys).orderedInsert meanLe x = x :: y :: ys := by
        simp only [List.orderedInsert, if_pos hmean]
      rw [he]
      refine List.Pairwise.cons ?_ (List.Pairwise.cons hy hys)
      intro z hz
      rcases List.mem_cons.mp hz with rfl | hz'
      · rcases lt_or_eq_of_le hmean with hlt | heq
        · exact Or.inl hlt
        · exact Or.inr ⟨heq, hx z (List.mem_cons_self _ _)⟩
      · have : x.mean ≤ z.mean := le_trans hmean (mean_le_of_statAscLex (hy z hz'))
        rcases lt_or_eq_of_le this with hlt | heq
        · exact Or.inl hlt
        · exact Or.inr ⟨heq, hx z (List.mem_cons_of_mem _ hz')⟩
    · have he : (y :: ys).orderedInsert meanLe x = y :: ys.orderedInsert meanLe x := by
        simp only [List.orderedInsert, if_neg hmean]
      rw [he]
      have hyx : y.mean < x.mean := lt_of_not_le hmean
      refine List.Pairwise.cons ?_
        (ih hys fun z hz => hx z (List.mem_cons_of_mem _ hz))
      intro w hw
      rcases (List.mem_orderedInsert meanLe).mp hw with rfl | hw'
      · exact Or.inl hyx
      · exact hy w hw'

/-- The stable ascending-by-mean sort of a list whose tags are strictly
increasing is sorted by (mean, tag) lexicographically. -/
lemma insertionSort_pairwise_statAscLex (l : List TagStat)
    (hl : l.Pairwise fun a b => strLt a.tag b.tag) :
    (List.insertionSort meanLe l).Pairwise statAscLex := by
  induction l with
  | nil => simp
  | cons x xs ih =>
    rw [List.pairwise_cons] at hl
    obtain ⟨hx, hxs⟩ := hl
    rw [List.insertionSort]
    exact orderedInsert_pairwise_statAscLex x _ (ih hxs)
      fun y hy => hx y ((List.mem_insertionSort meanLe).mp hy)

lemma strLt_of_strLe_ne {a b : String} (h : strLe a b) (hne : a ≠ b) :
    strLt a b := by
  rcases lt_or_eq_of_le h with hlt | heq
  · exact hlt
  · exact absurd (String.ext heq) hne

/-- The `groupby` output has strictly ascending tags. -/
lemma groupedStats_pairwise (pairs : List (String × ℚ)) :
    (groupedStats pairs).Pairwise fun a b => strLt a.tag b.tag := by
  unfold groupedStats
  rw [List.pairwise_map]
  have hnodup : (List.insertionSort strLe (pairs.map Prod.fst).dedup).Nodup :=
    ((List.perm_insertionSort strLe _).nodup_iff).mpr (List.nodup_dedup _)
  have hsorted : (List.insertionSort strLe (pairs.map Prod.fst).dedup).Pairwise strLe :=
    List.sorted_insertionSort strLe _
  exact (hsorted.and hnodup).imp fun h => strLt_of_strLe_ne h.1 h.2

/-- The full tag-correlation output is sorted strictly by descending mean
with equal-mean rows in descending tag order. -/
lemma gtc_pairwise (df : List Record) :
    (get_tag_correlations df).Pairwise statDescLex := by
  unfold get_tag_correlations
  dsimp only
  split_ifs
  · exact List.Pairwise.nil
  · rw [List.pairwise_reverse]
    exact insertionSort_pairwise_statAscLex _ (groupedStats_pairwise _)

/-- C4, amended: the tag correlation is returned sorted in descending
order of mean score, but tags with equal mean scores appear in the
*reverse* of their natural (ascending) display order — deterministically,
because pandas' descending `sort_values` reverses a stable ascending sort;
on the scenario input (one record tagged ["A","B"] with score 8 and one
tagged ["A"] with score 4) the result is A with mean 6 and count 2, B with
mean 8 and count 1, ordered B before A. -/
theorem tag_sort_amended :
    (∀ df : List Record, (get_tag_correlations df).Pairwise statDescLex) ∧
      get_tag_correlations exC4 = [⟨"B", 8, 1⟩, ⟨"A", 6, 2⟩] :=
  ⟨gtc_pairwise, by decide⟩

/-! ## C9 — protective-tag insight, amended -/

lemma pairwise_getLast? {l : List TagStat} {x : TagStat}
    (hp : l.Pairwise statDescLex) (hx : l.getLast? = some x) :
    ∀ y ∈ l, y = x ∨ statDescLex y x := by
  induction l with
  | nil => cases hx
  | cons a as ih =>
    rw [List.pairwise_cons] at hp
    obtain ⟨ha, has⟩ := hp
    cases as with
    | nil =>
      intro y hy
      have hxa : a = x := by simpa [List.getLast?] using hx
      rcases List.mem_singleton.mp hy with rfl
      exact Or.inl hxa
    | cons b bs =>
      have hx' : (b :: bs).getLast? = some x := by
        simpa [List.getLast?_cons_cons] using hx
      intro y hy
      rcases List.mem_cons.mp hy with rfl | hy'
      · exact Or.inr (ha x (List.mem_of_getLast?_eq_some hx'))
      · exact ih has hx' y hy'

/-- C9, amended: for a collection with at least 7 records, the
protective-tag rule emits a `tag_insight` iff the overall tag correlation
has at least 2 rows *and* the last protective row — the one with the
lowest mean among protective tags — has occurred at least 3 times; the
emitted insight names that tag with its count and mean, and its mean is
minimal among all protective-tag means. -/
theorem protective_tag_amended (df : List Record) (h7 : 7 ≤ df.length) :
    (∀ (t : String) (c : ℕ) (m : ℚ),
      Insight.tag_insight t c m ∈ get_pattern_insights df ↔
        (2 ≤ (get_tag_correlations df).length ∧
          (protectiveStats df).getLast? = some ⟨t, m, c⟩ ∧ 3 ≤ c)) ∧
    (∀ (t : String) (c : ℕ) (m : ℚ),
      Insight.tag_insight t c m ∈ get_pattern_insights df →
        ∀ s ∈ protectiveStats df, m ≤ s.mean) := by
  have hmain : ∀ (t : String) (c : ℕ) (m : ℚ),
      Insight.tag_insight t c m ∈ get_pattern_insights df ↔
        (2 ≤ (get_tag_correlations df).length ∧
          (protectiveStats df).getLast? = some ⟨t, m, c⟩ ∧ 3 ≤ c) := by
    intro t c m
    rw [tag_mem_iff (by omega)]
    unfold tagRuleInsight
    dsimp only
    unfold protectiveStats
    split_ifs with h2
    · rcases hl : ((get_tag_correlations df).filter
          fun s => positive_tags.contains s.tag).getLast? with _ | best
      · rw [hl]
        dsimp only
        simp only [h2, true_and]
        constructor
        · rintro ⟨⟩
        · rintro ⟨hb, _⟩
          cases hb
      · rw [hl]
        dsimp only
        split_ifs with h3
        · simp only [Option.some.injEq, Insight.tag_insight.injEq, h2, true_and]
          constructor
          · rintro ⟨rfl, rfl, rfl⟩
            exact ⟨rfl, h3⟩
          · rintro ⟨rfl, hc⟩
            exact ⟨rfl, rfl, rfl⟩
        · simp only [Option.some.injEq, h2, true_and]
          constructor
          · rintro ⟨⟩
          · rintro ⟨rfl, hc⟩
            exact absurd hc h3
    · simp [h2]
  refine ⟨hmain, fun t c m hmem s hs => ?_⟩
  obtain ⟨h2, hlast, h3⟩ := (hmain t c m).mp hmem
  have hp : (protectiveStats df).Pairwise statDescLex :=
    (gtc_pairwise df).filter _
  rcases pairwise_getLast? hp hlast s hs with rfl | hrel
  · exact le_refl _
  · rcases hrel with hlt | ⟨heq, _⟩
    · exact le_of_lt hlt
    · exact le_of_eq heq

/-- C9 witness: 3 protective-tagged records (score 2) among 7 make the
amended rule fire with tag `🏃 有運動`, count 3, mean 2. -/
theorem protective_tag_amended_witness :
    7 ≤ exC9b.length ∧
      Insight.tag_insight "🏃 有運動" 3 2 ∈ get_pattern_insights exC9b :=
  ⟨by decide, ((protective_tag_amended exC9b (by decide)).1 _ _ _).mpr
    ⟨by decide, by decide, by decide⟩⟩

/-! ## C10 — the implicit two-distinct-tags gate -/

/-- C10, confirmed: a `tag_insight` is only ever emitted when the overall
tag correlation contains at least 2 rows (distinct tags); in particular
with exactly one distinct tag — even a protective one with 3 or more
occurrences — no `tag_insight` is emitted. -/
theorem tag_insight_needs_two_tags (df : List Record) (t : String) (c : ℕ)
    (m : ℚ) (h : Insight.tag_insight t c m ∈ get_pattern_insights df) :
    2 ≤ (get_tag_correlations df).length := by
  by_cases h7 : df.length < 7
  · rw [get_pattern_insights_short h7] at h
    cases h
  · rw [tag_mem_iff h7] at h
    unfold tagRuleInsight at h
    dsimp only at h
    split_ifs at h with h2
    exact h2

/-- C10 witness: on the two-tag frame the insight does fire, and the
theorem yields the two-row bound. -/
theorem tag_insight_needs_two_tags_witness :
    2 ≤ (get_tag_correlations exC10).length :=
  tag_insight_needs_two_tags exC10 "🏃 有運動" 3 2 (by decide)

/-! ## C7 — recent trend -/

lemma orderedInsert_append_dateAsc (x : Record) (s : List Record)
    (h : ∀ y ∈ s, ¬ dateAscLe x y) :
    s.orderedInsert dateAscLe x = s ++ [x] := by
  induction s with
  | nil => rfl
  | cons y ys ih =>
    simp only [List.orderedInsert, if_neg (h y (List.mem_cons_self _ _))]
    rw [ih fun z hz => h z (List.mem_cons_of_mem _ hz), List.cons_append]

/-- The stable ascending sort of a strictly date-descending list is its
reverse. -/
lemma sortDateAsc_of_strictDesc (l : List Record)
    (h : l.Pairwise fun a b => b.date < a.date) :
    sortDateAsc l = l.reverse := by
  induction l with
  | nil => rfl
  | cons x xs ih =>
    rw [List.pairwise_cons] at h
    obtain ⟨hx, hxs⟩ := h
    unfold sortDateAsc at *
    rw [List.insertionSort, ih hxs,
      orderedInsert_append_dateAsc x xs.reverse
        (fun y hy => not_le.mpr (hx y (List.mem_reverse.mp hy))),
      List.reverse_cons]

/-- With pairwise-distinct dates, the descending sort is strictly
descending. -/
lemma sortDateDesc_strict (df : List Record)
    (h : (df.map Record.date).Nodup) :
    (sortDateDesc df).Pairwise fun a b => b.date < a.date := by
  have hsorted : (sortDateDesc df).Pairwise dateDescLe :=
    List.sorted_insertionSort dateDescLe df
  have hnodup : ((sortDateDesc df).map Record.date).Nodup :=
    (((List.perm_insertionSort dateDescLe df).map Record.date).nodup_iff).mpr h
  rw [List.Nodup, List.pairwise_map] at hnodup
  exact (hsorted.and hnodup).imp fun h' => lt_of_le_of_ne h'.1 (Ne.symm h'.2)

/-- With distinct dates and at least 14 records,
`nlargest(14).nsmallest(7)` has the same mean as positions 8–14 of the
date-descending order — the 7 records immediately preceding the most
recent 7. -/
lemma prev7_eq (df : List Record) (h : (df.map Record.date).Nodup)
    (h14 : 14 ≤ df.length) :
    meanQ ((nsmallestByDate 7 (nlargestByDate 14 df)).map Record.score) =
      prev7specmean df := by
  have hT : (nlargestByDate 14 df).Pairwise fun a b => b.date < a.date :=
    List.Pairwise.sublist (List.take_sublist _ _) (sortDateDesc_strict df h)
  have hlen : (nlargestByDate 14 df).length = 14 := by
    rw [length_nlargest]; omega
  unfold nsmallestByDate prev7specmean
  rw [sortDateAsc_of_strictDesc _ hT, List.take_reverse, hlen,
    show (14 : ℕ) - 7 = 7 from rfl, List.map_reverse]
  unfold meanQ
  rw [List.sum_reverse, List.length_reverse]

/-- C7, confirmed: with pairwise-distinct dates, the trend insight is
emitted iff at least 14 records exist and the mean of the 7 most-recent
records differs from the mean of the 7 immediately preceding records by
at least 2 in absolute value; the emitted insight carries exactly that
signed difference, and its "rising" (adverse) framing holds iff the
difference is positive.  With fewer than 14 records it never fires. -/
theorem trend_rule_iff (df : List Record) (h : (df.map Record.date).Nodup) :
    ((∃ d b, Insight.trend d b ∈ get_pattern_insights df) ↔
      (14 ≤ df.length ∧ 2 ≤ |recent7mean df - prev7specmean df|)) ∧
    (∀ d b, Insight.trend d b ∈ get_pattern_insights df →
      d = recent7mean df - prev7specmean df ∧ b = decide (0 < d)) := by
  by_cases h14 : 14 ≤ df.length
  case neg =>
    have hno : ∀ d b, Insight.trend d b ∉ get_pattern_insights df := by
      intro d b hmem
      by_cases h7 : df.length < 7
      · rw [get_pattern_insights_short h7] at hmem
        cases hmem
      · rw [trend_mem_iff h7] at hmem
        unfold trendInsight at hmem
        rw [if_neg h14] at hmem
        cases hmem
    refine ⟨⟨?_, ?_⟩, ?_⟩
    · rintro ⟨d, b, hd⟩
      exact absurd hd (hno d b)
    · rintro ⟨h14', -⟩
      exact absurd h14' h14
    · intro d b hd
      exact absurd hd (hno d b)
  case pos =>
    have h7 : ¬ df.length < 7 := by omega
    have hpe : meanQ ((nsmallestByDate 7 (nlargestByDate 14 df)).map Record.score) =
        prev7specmean df := prev7_eq df h h14
    have hre : meanQ ((nlargestByDate 7 df).map Record.score) = recent7mean df := rfl
    refine ⟨⟨?_, ?_⟩, ?_⟩
    · rintro ⟨d, b, hd⟩
      rw [trend_mem_iff h7] at hd
      unfold trendInsight at hd
      rw [if_pos h14] at hd
      dsimp only at hd
      rw [hpe, hre] at hd
      split_ifs at hd with habs
      exact ⟨h14, habs⟩
    · rintro ⟨-, habs⟩
      refine ⟨recent7mean df - prev7specmean df,
        decide (0 < recent7mean df - prev7specmean df), ?_⟩
      rw [trend_mem_iff h7]
      unfold trendInsight
      rw [if_pos h14]
      dsimp only
      rw [hpe, hre, if_pos habs]
    · intro d b hd
      rw [trend_mem_iff h7] at hd
      unfold trendInsight at hd
      rw [if_pos h14] at hd
      dsimp only at hd
      rw [hpe, hre] at hd
      split_ifs at hd with habs
      have hd' := Option.some_injective _ hd
      injection hd' with h1 h2
      subst h1
      exact ⟨rfl, h2.symm⟩

/-- C7 witness: the spec scenario — 14 daily records, scores 2 then 10 —
fires a trend insight (the difference is +8, framed as rising). -/
theorem trend_rule_iff_witness :
    (exC7.map Record.date).Nodup ∧
      (∃ d b, Insight.trend d b ∈ get_pattern_insights exC7) :=
  ⟨by decide, ((trend_rule_iff exC7 (by decide)).1).mpr ⟨by decide, by decide⟩⟩

/-! ## C8 — day-of-week pattern -/

/-- `idxmin` returns a row of the frame whose mean is a lower bound. -/
lemma idxminPair_spec : ∀ l : List (ℤ × ℚ), l ≠ [] →
    idxminPair l ∈ l ∧ ∀ q ∈ l, (idxminPair l).2 ≤ q.2
  | [], h => absurd rfl h
  | [p], _ => by simp [idxminPair]
  | p :: q :: rest, _ => by
    have ih := idxminPair_spec (q :: rest) (by simp)
    simp only [idxminPair]
    split_ifs with hle
    · refine ⟨List.mem_cons_self _ _, fun r hr => ?_⟩
      rcases List.mem_cons.mp hr with rfl | hr'
      · exact le_refl _
      · exact le_trans hle (ih.2 r hr')
    · refine ⟨List.mem_cons_of_mem _ ih.1, fun r hr => ?_⟩
      rcases List.mem_cons.mp hr with rfl | hr'
      · exact le_of_lt (lt_of_not_le hle)
      · exact ih.2 r hr'

/-- `idxmax` returns a row of the frame whose mean is an upper bound. -/
lemma idxmaxPair_spec : ∀ l : List (ℤ × ℚ), l ≠ [] →
    idxmaxPair l ∈ l ∧ ∀ q ∈ l, q.2 ≤ (idxmaxPair l).2
  | [], h => absurd rfl h
  | [p], _ => by simp [idxmaxPair]
  | p :: q :: rest, _ => by
    have ih := idxmaxPair_spec (q :: rest) (by simp)
    simp only [idxmaxPair]
    split_ifs with hle
    · refine ⟨List.mem_cons_self _ _, fun r hr => ?_⟩
      rcases List.mem_cons.mp hr with rfl | hr'
      · exact le_refl _
      · exact le_trans (ih.2 r hr') hle
    · refine ⟨List.mem_cons_of_mem _ ih.1, fun r hr => ?_⟩
      rcases List.mem_cons.mp hr with rfl | hr'
      · exact le_of_lt (lt_of_not_le hle)
      · exact ih.2 r hr'

lemma dayStats_length (df : List Record) :
    (dayStats df).length = numWeekdays df := by
  simp [dayStats, numWeekdays, weekdaysPresent]

/-- Characterisation of rule 1's output. -/
lemma dayInsight_eq_some_iff (df : List Record) (i : Insight) :
    dayInsight df = some i ↔
      (3 ≤ (dayStats df).length ∧
        2 ≤ (idxmaxPair (dayStats df)).2 - (idxminPair (dayStats df)).2 ∧
        i = .day_pattern (idxmaxPair (dayStats df)).1 (idxminPair (dayStats df)).1
          (idxmaxPair (dayStats df)).2 (idxminPair (dayStats df)).2) := by
  unfold dayInsight
  dsimp only
  split_ifs with h3 hgap
  · simp only [Option.some.injEq]
    constructor
    · intro he
      exact ⟨h3, hgap, he.symm⟩
    · rintro ⟨-, -, rfl⟩
      rfl
  · constructor
    · rintro ⟨⟩
    · rintro ⟨-, hgap', -⟩
      exact absurd hgap' hgap
  · constructor
    · rintro ⟨⟩
    · rintro ⟨h3', -, -⟩
      exact absurd h3' h3

/-- C8, confirmed: the day-of-week insight fires iff there are at least 7
records, at least 3 distinct weekdays represented, and the largest
per-weekday mean exceeds the smallest by at least 2; it never fires below
either threshold, and when it fires it names weekday means that are
exactly the minimum and maximum per-weekday means. -/
theorem day_pattern_rule_iff (df : List Record) :
    ((∃ wd bd wm bm, Insight.day_pattern wd bd wm bm ∈ get_pattern_insights df) ↔
      (7 ≤ df.length ∧ 3 ≤ numWeekdays df ∧
        ∃ m M, m ∈ wdMeans df ∧ M ∈ wdMeans df ∧
          (∀ x ∈ wdMeans df, m ≤ x ∧ x ≤ M) ∧ m + 2 ≤ M)) ∧
    (∀ wd bd wm bm, Insight.day_pattern wd bd wm bm ∈ get_pattern_insights df →
      (wd, wm) ∈ dayStats df ∧ (bd, bm) ∈ dayStats df ∧
        ∀ x ∈ wdMeans df, bm ≤ x ∧ x ≤ wm) := by
  have hmem_mean : ∀ s ∈ dayStats df, s.2 ∈ wdMeans df := fun s hs =>
    List.mem_map_of_mem Prod.snd hs
  have hmean_mem : ∀ x ∈ wdMeans df, ∃ s ∈ dayStats df, s.2 = x := by
    intro x hx
    obtain ⟨s, hs, he⟩ := List.mem_map.mp hx
    exact ⟨s, hs, he⟩
  constructor
  · constructor
    · rintro ⟨wd, bd, wm, bm, hmem⟩
      by_cases h7 : df.length < 7
      · rw [get_pattern_insights_short h7] at hmem
        cases hmem
      · rw [day_mem_iff h7] at hmem
        rw [dayInsight_eq_some_iff] at hmem
        obtain ⟨h3, hgap, -⟩ := hmem
        have hne : dayStats df ≠ [] := by
          intro he; rw [he] at h3; simp at h3
        obtain ⟨hminmem, hminle⟩ := idxminPair_spec _ hne
        obtain ⟨hmaxmem, hmaxle⟩ := idxmaxPair_spec _ hne
        refine ⟨by omega, by rw [← dayStats_length]; exact h3,
          (idxminPair (dayStats df)).2, (idxmaxPair (dayStats df)).2,
          hmem_mean _ hminmem, hmem_mean _ hmaxmem, ?_, by linarith⟩
        intro x hx
        obtain ⟨s, hs, rfl⟩ := hmean_mem x hx
        exact ⟨hminle s hs, hmaxle s hs⟩
    · rintro ⟨h7, h3, m, M, hm, hM, hbound, hgap⟩
      rw [← dayStats_length] at h3
      have hne : dayStats df ≠ [] := by
        intro he; rw [he] at h3; simp at h3
      obtain ⟨hminmem, hminle⟩ := idxminPair_spec _ hne
      obtain ⟨hmaxmem, hmaxle⟩ := idxmaxPair_spec _ hne
      obtain ⟨sm, hsm, hsme⟩ := hmean_mem m hm
      obtain ⟨sM, hsM, hsMe⟩ := hmean_mem M hM
      have hmin_eq : (idxminPair (dayStats df)).2 = m := by
        have h1 := hminle sm hsm
        have h2 := (hbound _ (hmem_mean _ hminmem)).1
        rw [hsme] at h1
        exact le_antisymm (by linarith) (by linarith)
      have hmax_eq : (idxmaxPair (dayStats df)).2 = M := by
        have h1 := hmaxle sM hsM
        have h2 := (hbound _ (hmem_mean _ hmaxmem)).2
        rw [hsMe] at h1
        exact le_antisymm (by linarith) (by linarith)
      refine ⟨(idxmaxPair (dayStats df)).1, (idxminPair (dayStats df)).1,
        (idxmaxPair (dayStats df)).2, (idxminPair (dayStats df)).2, ?_⟩
      rw [day_mem_iff (by omega), dayInsight_eq_some_iff]
      exact ⟨h3, by rw [hmin_eq, hmax_eq]; linarith, rfl⟩
  · rintro wd bd wm bm hmem
    by_cases h7 : df.length < 7
    · rw [get_pattern_insights_short h7] at hmem
      cases hmem
    · rw [day_mem_iff h7, dayInsight_eq_some_iff] at hmem
      obtain ⟨h3, -, he⟩ := hmem
      have hne : dayStats df ≠ [] := by
        intro he'; rw [he'] at h3; simp at h3
      obtain ⟨hminmem, hminle⟩ := idxminPair_spec _ hne
      obtain ⟨hmaxmem, hmaxle⟩ := idxmaxPair_spec _ hne
      obtain ⟨rfl, rfl, rfl, rfl⟩ :
          wd = (idxmaxPair (dayStats df)).1 ∧ bd = (idxminPair (dayStats df)).1 ∧
            wm = (idxmaxPair (dayStats df)).2 ∧ bm = (idxminPair (dayStats df)).2 := by
        injection he with a b c d
        exact ⟨a, b, c, d⟩
      refine ⟨by simpa using hmaxmem, by simpa using hminmem, ?_⟩
      intro x hx
      obtain ⟨s, hs, rfl⟩ := hmean_mem x hx
      exact ⟨hminle s hs, hmaxle s hs⟩

/-- C8 witness: 7 records over 7 weekdays, six scores 2 and one 10, make
the day-pattern insight fire (min mean 2, max mean 10). -/
theorem day_pattern_rule_iff_witness :
    ∃ wd bd wm bm, Insight.day_pattern wd bd wm bm ∈ get_pattern_insights exC8 :=
  (day_pattern_rule_iff exC8).1.mpr
    ⟨by decide, by decide, 2, 10, by decide, by decide, by decide, by norm_num⟩

end MoodTracker
